import Mathlib

/-
Verification of the quadrature-rule subsystem declared in
src/src/Infrastructure/Mesh/include/ESMC_Quadrature.h (namespace ESMC).

The header declares an abstract rule class `intgRule` with concrete variants
arbq (arbitrary point set), barq (1-D Gauss-Legendre line rule), quadq,
triq, hexq and tetraq, each cached per order through a static
`instance(order)` member, plus the free function `gauss_legendre`, the
dispatcher `Topo2Intg` and the `sideIntgFactory` registry.

Shallow embedding conventions:
- C++ pointer identity is modelled by an `id : Nat` field allocated from a
  monotone counter in the explicit state `QuadState`.
- Static per-class caches (`classInstances`) and the factory `InstanceMap`
  are fields of `QuadState`; every stateful C++ call becomes a Lean
  function taking and returning a `QuadState`.
- `Throw() << msg` becomes `CRes.thrown msg`; an out-of-bounds
  `std::vector::operator[]` access (which performs no bounds check and
  raises nothing) becomes `CRes.ub` (undefined behaviour), kept distinct
  from thrown errors.
- `double` values are modelled as `ℚ` (copying caller data is exact, and no
  claim depends on floating-point rounding).
-/

set_option autoImplicit false

namespace ESMC

/-- Outcome of a C++ call: a normal return, an exception raised through
`Throw()`, or undefined behaviour (e.g. an unchecked out-of-bounds vector
access). -/
inductive CRes (α : Type) where
  | ok (val : α)
  | thrown (msg : String)
  | ub
deriving DecidableEq

/-- Does the call return normally? -/
def CRes.isOk {α : Type} : CRes α → Bool
  | .ok _ => true
  | _ => false

/-- Was an exception raised through `Throw()`? -/
def CRes.isThrown {α : Type} : CRes α → Bool
  | .thrown _ => true
  | _ => false

/-- Is the outcome undefined behaviour? -/
def CRes.isUB {α : Type} : CRes α → Bool
  | .ub => true
  | _ => false

/-- The closed set of concrete `intgRule` subclasses declared in the
header: arbq, barq, quadq, triq, hexq, tetraq. -/
inductive Variant where
  | arbq | barq | quadq | triq | hexq | tetraq
deriving DecidableEq

/-- One `intgRule` object (ESMC_Quadrature.h lines 29-58): order `q`,
point count `n`, parametric dimension `pdim`, the `locs` and `wgts`
arrays, plus the dynamic type tag and the object's identity (the C++
pointer value). -/
structure RuleObj where
  id : Nat
  variant : Variant
  q : Nat
  n : Nat
  pdim : Nat
  locs : List ℚ
  wgts : List ℚ
deriving DecidableEq

/-- Accessor `npoints()` (header line 34). -/
def RuleObj.npoints (r : RuleObj) : Nat := r.n

/-- Accessor `order()` (header line 36). -/
def RuleObj.order (r : RuleObj) : Nat := r.q

/-- Accessor `parametric_dim()` (header line 38). -/
def RuleObj.parametric_dim (r : RuleObj) : Nat := r.pdim

/-- Accessor `locations()` (header line 41). -/
def RuleObj.locations (r : RuleObj) : List ℚ := r.locs

/-- Accessor `weights()` (header line 43). -/
def RuleObj.weights (r : RuleObj) : List ℚ := r.wgts

/-- One `sideIntgFactory` object (header lines 185-205): the vector
`side_rules` of per-side rules, the topology it was built for, the
identity of the base rule it was keyed on, and its own object identity. -/
structure sideIntgFactory where
  id : Nat
  toponame : String
  baseId : Nat
  side_rules : List RuleObj
deriving DecidableEq

/-- Modelled from the spec: the external `MeshObjTopo` topology descriptor
(only forward-declared in the header) exposes a name, a parametric
dimension and the ordered list of side shape names. -/
structure MeshObjTopo where
  name : String
  pdim : Nat
  sideNames : List String
deriving DecidableEq

/-- Side count of a topology. -/
def MeshObjTopo.num_sides (t : MeshObjTopo) : Nat := t.sideNames.length

/-- The process-wide mutable state: the allocation counter standing for
the C++ heap pointer supply, the per-variant static `classInstances` maps
(order ↦ rule), and the `sideIntgFactory::InstanceMap`
((toponame, base-rule identity) ↦ factory). -/
structure QuadState where
  nextId : Nat
  bars : List (Nat × RuleObj)
  quads : List (Nat × RuleObj)
  tris : List (Nat × RuleObj)
  hexs : List (Nat × RuleObj)
  tetras : List (Nat × RuleObj)
  factories : List ((String × Nat) × sideIntgFactory)
deriving DecidableEq

/-- The state at process start: empty caches. -/
def initState : QuadState := ⟨0, [], [], [], [], [], []⟩

/-- The static `classInstances` map of a variant (arbq has none). -/
def QuadState.cacheOf (s : QuadState) : Variant → List (Nat × RuleObj)
  | .arbq => []
  | .barq => s.bars
  | .quadq => s.quads
  | .triq => s.tris
  | .hexq => s.hexs
  | .tetraq => s.tetras

/-- Replace the `classInstances` map of a variant (no-op for arbq, which
has no cache). -/
def QuadState.setCache (s : QuadState) (v : Variant) (m : List (Nat × RuleObj)) : QuadState :=
  match v with
  | .arbq => s
  | .barq => { s with bars := m }
  | .quadq => { s with quads := m }
  | .triq => { s with tris := m }
  | .hexq => { s with hexs := m }
  | .tetraq => { s with tetras := m }

/-- `std::map<UInt, *q*>::find`: first entry with the given order key. -/
def cfind : List (Nat × RuleObj) → Nat → Option RuleObj
  | [], _ => none
  | (k, r) :: rest, q => if k = q then some r else cfind rest q

/-- `InstanceMap::find` on the key pair (toponame, base-rule identity). -/
def facFind : List ((String × Nat) × sideIntgFactory) → String → Nat → Option sideIntgFactory
  | [], _, _ => none
  | ((t, b), f) :: rest, t', b' =>
      if t = t' ∧ b = b' then some f else facFind rest t' b'

/-- Modelled from the spec: the number of 1-D Gauss-Legendre points used
for a requested order `q` (the smallest n with 2n-1 ≥ q); the header does
not fix the count, and no claim depends on the exact value. -/
def glNumPoints (q : Nat) : Nat := (q + 2) / 2

/-- Parametric dimension of each cached variant (arbq's dimension is
caller-supplied, so the table value for arbq is unused). -/
def vPdim : Variant → Nat
  | .arbq => 0
  | .barq => 1
  | .quadq => 2
  | .triq => 2
  | .hexq => 3
  | .tetraq => 3

/-- Modelled from the spec: point count of each cached variant at order
`q` — tensor powers of the 1-D count for bar/quad/hex, simplex counts for
tri/tetra. The header leaves the counts to the missing constructor
bodies; no claim depends on the exact values. -/
def vNPoints (v : Variant) (q : Nat) : Nat :=
  match v with
  | .arbq => 0
  | .barq => glNumPoints q
  | .quadq => glNumPoints q ^ 2
  | .triq => glNumPoints q * (glNumPoints q + 1) / 2
  | .hexq => glNumPoints q ^ 3
  | .tetraq => glNumPoints q * (glNumPoints q + 1) * (glNumPoints q + 2) / 6

/-- Modelled from the spec: the `intgRule(q, n, pdim)` base constructor
(its body is not in the header) allocates `locs` with exactly n·pdim
entries and `wgts` with exactly n entries; the generated point values are
an implementation detail the spec leaves opaque, modelled as zeros. -/
def mkCachedRule (v : Variant) (q : Nat) (idv : Nat) : RuleObj :=
  { id := idv, variant := v, q := q, n := vNPoints v q, pdim := vPdim v,
    locs := List.replicate (vNPoints v q * vPdim v) 0,
    wgts := List.replicate (vNPoints v q) 0 }

/-- Modelled from the spec: the static `instance(order)` member shared by
barq/quadq/triq/hexq/tetraq (declared in the header, bodies in the missing
.C file): look the order up in the class's `classInstances` map, and on a
miss construct the rule, insert it and return it. -/
def instanceOf (v : Variant) (q : Nat) (s : QuadState) : RuleObj × QuadState :=
  match cfind (s.cacheOf v) q with
  | some r => (r, s)
  | none =>
      let r := mkCachedRule v q s.nextId
      (r, { s.setCache v ((q, r) :: s.cacheOf v) with nextId := s.nextId + 1 })

/-- The `arbq` constructor (header lines 63-67): base-constructs
`intgRule(nq, nq, pdim)` — so order = npoints = nq — then copies
`nq * pdim` coordinates from `pcoord` into `locs`, and copies `nq` weights
from `_wgts` only when that pointer is non-null (`none` models NULL, in
which case `wgts` keeps its freshly allocated contents, modelled as
zeros). The object is heap-allocated, never cached. -/
def arbq.mk (pdim nq : Nat) (pcoord : List ℚ) (w : Option (List ℚ)) (s : QuadState) :
    RuleObj × QuadState :=
  ({ id := s.nextId, variant := .arbq, q := nq, n := nq, pdim := pdim,
     locs := pcoord.take (nq * pdim),
     wgts := match w with
             | some ws => ws.take nq
             | none => List.replicate nq 0 },
   { s with nextId := s.nextId + 1 })

/-- Virtual dispatch of `side_rule()` (header lines 71-73, 92-94, 110-112,
127-129, 145-147, 162-164): arbq and barq throw; quadq and triq return
`barq::instance(q)`, hexq returns `quadq::instance(q)`, tetraq returns
`triq::instance(q)`, each at the receiver's own order `q`. -/
def intgRule.side_rule (r : RuleObj) (s : QuadState) : CRes (RuleObj × QuadState) :=
  match r.variant with
  | .arbq => .thrown "No side rule for arbq"
  | .barq => .thrown "No side rule for bar"
  | .quadq => .ok (instanceOf .barq r.q s)
  | .triq => .ok (instanceOf .barq r.q s)
  | .hexq => .ok (instanceOf .quadq r.q s)
  | .tetraq => .ok (instanceOf .triq r.q s)

/-- Virtual dispatch of `ChangeOrder(q)` (header lines 75-77, 89-91,
107-109, 124-126, 142-144, 159-161): arbq throws; every cached variant
returns `instance(q)` of its own class. -/
def intgRule.ChangeOrder (r : RuleObj) (q' : Nat) (s : QuadState) : CRes (RuleObj × QuadState) :=
  match r.variant with
  | .arbq => .thrown "Arbq doesnt swap order"
  | v => .ok (instanceOf v q' s)

/-- `sideIntgFactory::GetSideRule` (header lines 187-189): returns
`side_rules[side_num]` through `std::vector::operator[]`, which performs
no bounds check — an out-of-range index is undefined behaviour, not a
raised error. -/
def sideIntgFactory.GetSideRule (f : sideIntgFactory) (side_num : Nat) : CRes RuleObj :=
  match f.side_rules[side_num]? with
  | some r => .ok r
  | none => .ub

/-- Modelled from the spec: the topology names the dispatcher recognizes,
one per cached variant (the `Topo2Intg::operator()` body is not in the
header, and the concrete ESMF name strings are with it). -/
def topoVariant (nm : String) : Option Variant :=
  if nm = "BAR" then some .barq
  else if nm = "QUAD" then some .quadq
  else if nm = "TRI" then some .triq
  else if nm = "HEX" then some .hexq
  else if nm = "TETRA" then some .tetraq
  else none

/-- Modelled from the spec: `Topo2Intg::operator()(q, toponame)` (declared
header lines 176-178) returns the matching variant's cached instance at
order `q`, and fails on an unknown topology name rather than falling back
to a default rule. -/
def Topo2Intg (q : Nat) (toponame : String) (s : QuadState) : CRes (RuleObj × QuadState) :=
  match topoVariant toponame with
  | some v => .ok (instanceOf v q s)
  | none => .thrown "Unknown topology"

/-- Modelled from the spec: the topology table of the external
`MeshObjTopo` collaborator — each supported topology with its parametric
dimension and canonical ordered side shapes (a hexahedron has 6
quadrilateral sides, a tetrahedron 4 triangles, a quadrilateral 4 lines,
a triangle 3 lines, a line none in this hierarchy). -/
def GetMeshObjTopo (nm : String) : Option MeshObjTopo :=
  if nm = "BAR" then some ⟨"BAR", 1, []⟩
  else if nm = "QUAD" then some ⟨"QUAD", 2, ["BAR", "BAR", "BAR", "BAR"]⟩
  else if nm = "TRI" then some ⟨"TRI", 2, ["BAR", "BAR", "BAR"]⟩
  else if nm = "HEX" then some ⟨"HEX", 3, ["QUAD", "QUAD", "QUAD", "QUAD", "QUAD", "QUAD"]⟩
  else if nm = "TETRA" then some ⟨"TETRA", 3, ["TRI", "TRI", "TRI", "TRI"]⟩
  else none

/-- Modelled from the spec: the `sideIntgFactory` constructor body (not
in the header) fills `side_rules` by asking, for each side shape of the
topology in canonical order, that shape's rule cache for the order `q`
carried by the base rule. -/
def buildSideRules (q : Nat) : List String → QuadState → CRes (List RuleObj × QuadState)
  | [], s => .ok ([], s)
  | nm :: rest, s =>
      match Topo2Intg q nm s with
      | .ok (r, s') =>
          match buildSideRules q rest s' with
          | .ok (rs, s'') => .ok (r :: rs, s'')
          | .thrown m => .thrown m
          | .ub => .ub
      | .thrown m => .thrown m
      | .ub => .ub

/-- Modelled from the spec: `sideIntgFactory::instance(toponame, base_rule)`
(declared header line 194): look the key pair (toponame, identity of
base_rule) up in the `InstanceMap` (header line 196); on a miss, build the
per-side rules at the base rule's order, allocate the factory, insert it
under that key and return it. -/
def sideIntgFactory.instanceOf (toponame : String) (base : RuleObj) (s : QuadState) :
    CRes (sideIntgFactory × QuadState) :=
  match facFind s.factories toponame base.id with
  | some f => .ok (f, s)
  | none =>
      match GetMeshObjTopo toponame with
      | none => .thrown "Unknown topology"
      | some topo =>
          match buildSideRules base.q topo.sideNames s with
          | .ok (rs, s') =>
              let f : sideIntgFactory :=
                { id := s'.nextId, toponame := toponame, baseId := base.id, side_rules := rs }
              .ok (f, { s' with nextId := s'.nextId + 1,
                                factories := ((toponame, base.id), f) :: s'.factories })
          | .thrown m => .thrown m
          | .ub => .ub

/-- The exact moment integral ∫ x^k dx over [-1, 1]: 0 for odd k,
2/(k+1) for even k. -/
def monomialIntegral (k : Nat) : ℚ :=
  if k % 2 = 1 then 0 else 2 / ((k : ℚ) + 1)

/-- The defining property of an n-point Gauss-Legendre rule on [-1, 1]:
n abscissae and n weights whose weighted monomial sums reproduce the
exact integrals up to degree 2n-1. -/
def IsGaussLegendreRule (n : Nat) (locs wgts : List ℚ) : Prop :=
  locs.length = n ∧ wgts.length = n ∧
    ∀ k : Nat, k ≤ 2 * n - 1 →
      ((locs.zip wgts).map (fun p => p.2 * p.1 ^ k)).sum = monomialIntegral k

/-- Modelled from the spec: `gauss_legendre(n, locs, wghts)` (declared
header line 173, body not in the header) fails its precondition for
n = 0 and otherwise writes the n-point Gauss-Legendre data, writing
weights only when a weights array is supplied (`wantWeights` models a
non-null `wghts` pointer). Only n = 1 is pinned down by the spec — a
single abscissa 0 with weight 2, which `gl_one_point_unique` below shows
is forced by `IsGaussLegendreRule` — and rules for n ≥ 2 have irrational
abscissae outside this rational model; no claim depends on them, so their
data is left as placeholder zeros. -/
def gauss_legendre (n : Nat) (wantWeights : Bool) : CRes (List ℚ × Option (List ℚ)) :=
  match n with
  | 0 => .thrown "gauss_legendre: n must be positive"
  | 1 => .ok ([0], if wantWeights then some [2] else none)
  | m + 2 =>
      .ok (List.replicate (m + 2) 0,
           if wantWeights then some (List.replicate (m + 2) 0) else none)

/-- The sizing invariant of `intgRule`: `locs` holds exactly n·pdim
entries and `wgts` exactly n. -/
def WFRule (r : RuleObj) : Prop :=
  r.locs.length = r.n * r.pdim ∧ r.wgts.length = r.n

/-- State well-formedness: every rule registered in a variant's cache has
that dynamic type, carries the order it is keyed under, and satisfies the
sizing invariant. -/
def WFState (s : QuadState) : Prop :=
  ∀ v q r, cfind (s.cacheOf v) q = some r → r.variant = v ∧ r.q = q ∧ WFRule r

/-- Cache monotonicity: every rule and factory registered in `s` is still
registered, unchanged, in `s'`, and the allocation counter has not gone
backwards. -/
def Extends (s s' : QuadState) : Prop :=
  s.nextId ≤ s'.nextId ∧
  (∀ v q r, cfind (s.cacheOf v) q = some r → cfind (s'.cacheOf v) q = some r) ∧
  (∀ t b f, facFind s.factories t b = some f → facFind s'.factories t b = some f)

/-- One public operation of the subsystem, as a step on the process-wide
state. -/
inductive Step : QuadState → QuadState → Prop where
  | inst (v : Variant) (q : Nat) (s : QuadState) : Step s (instanceOf v q s).2
  | arb (pdim nq : Nat) (pc : List ℚ) (w : Option (List ℚ)) (s : QuadState) :
      Step s (arbq.mk pdim nq pc w s).2
  | sider (r : RuleObj) (s : QuadState) (r' : RuleObj) (s' : QuadState) :
      intgRule.side_rule r s = .ok (r', s') → Step s s'
  | chord (r : RuleObj) (q' : Nat) (s : QuadState) (r' : RuleObj) (s' : QuadState) :
      intgRule.ChangeOrder r q' s = .ok (r', s') → Step s s'
  | topo (q : Nat) (nm : String) (s : QuadState) (r : RuleObj) (s' : QuadState) :
      Topo2Intg q nm s = .ok (r, s') → Step s s'
  | sidef (t : String) (b : RuleObj) (s : QuadState) (f : sideIntgFactory) (s' : QuadState) :
      sideIntgFactory.instanceOf t b s = .ok (f, s') → Step s s'

/-- Any finite sequence of public operations. -/
def Reach : QuadState → QuadState → Prop := Relation.ReflTransGen Step

/-- The side-rule contract of claim C3 for one variant pair: after caching
the rule of variant `v` at order `q`, `side_rule()` on it returns the
cached instance of variant `vs` at the same order. -/
def SideRuleMatches (v vs : Variant) (q : Nat) (s : QuadState) : Prop :=
  intgRule.side_rule (instanceOf v q s).1 (instanceOf v q s).2 =
      .ok (instanceOf vs q (instanceOf v q s).2) ∧
  (instanceOf vs q (instanceOf v q s).2).1.variant = vs ∧
  (instanceOf vs q (instanceOf v q s).2).1.order = q

/-- Extract the factory from a successful factory-instance call (dummy
value on failure; used only to state concrete evaluations). -/
def getFac (r : CRes (sideIntgFactory × QuadState)) : sideIntgFactory :=
  match r with
  | .ok p => p.1
  | _ => ⟨0, "", 0, []⟩

/-- Extract the post-state from a successful factory-instance call (dummy
value on failure; used only to state concrete evaluations). -/
def getFacState (r : CRes (sideIntgFactory × QuadState)) : QuadState :=
  match r with
  | .ok p => p.2
  | _ => initState

/-- The topology names the modelled dispatcher supports. -/
def supportedTopos : List String := ["BAR", "QUAD", "TRI", "HEX", "TETRA"]

/-- Concrete run: a cached line rule of order 2 used as a factory base
rule. -/
def c1base : RuleObj × QuadState := instanceOf .barq 2 initState

/-- Concrete run: the side-rule factory for the hexahedron built on
`c1base`. -/
def c1call : CRes (sideIntgFactory × QuadState) :=
  sideIntgFactory.instanceOf "HEX" c1base.1 c1base.2

/-- Concrete run: first base rule (line rule, order 2, id 0). -/
def c2r1 : RuleObj × QuadState := instanceOf .barq 2 initState

/-- Concrete run: second base rule (triangle rule, order 2, id 1) —
same order as `c2r1`, different identity. -/
def c2r2 : RuleObj × QuadState := instanceOf .triq 2 c2r1.2

/-- Concrete run: quadrilateral side-rule factory keyed on the first base
rule. -/
def c2call1 : CRes (sideIntgFactory × QuadState) :=
  sideIntgFactory.instanceOf "QUAD" c2r1.1 c2r2.2

/-- Concrete run: quadrilateral side-rule factory keyed on the second
base rule, requested from the state left by the first call. -/
def c2call2 : CRes (sideIntgFactory × QuadState) :=
  sideIntgFactory.instanceOf "QUAD" c2r2.1 (getFacState c2call1)

/-- Concrete arbitrary rule (pdim 2, one point) for exercising the arbq
virtual methods. -/
def c5arb : RuleObj := (arbq.mk 2 1 [0, 0] none initState).1

/-- Concrete cached line rule of order 1. -/
def c5bar : RuleObj := (instanceOf .barq 1 initState).1

/-- Concrete cached quadrilateral rule of order 2. -/
def c6quad : RuleObj := (instanceOf .quadq 2 initState).1

/-- State after caching the quadrilateral rule of order 1. -/
def c4s1 : QuadState := (instanceOf .quadq 1 initState).2

theorem setCache_nextId (s : QuadState) (v : Variant) (m : List (Nat × RuleObj)) :
    (s.setCache v m).nextId = s.nextId := by
  cases v <;> rfl

theorem setCache_factories (s : QuadState) (v : Variant) (m : List (Nat × RuleObj)) :
    (s.setCache v m).factories = s.factories := by
  cases v <;> rfl

theorem cacheOf_arbq (s : QuadState) : s.cacheOf .arbq = [] := rfl

theorem cacheOf_setCache_self (s : QuadState) (v : Variant) (m : List (Nat × RuleObj))
    (hv : v ≠ .arbq) : (s.setCache v m).cacheOf v = m := by
  cases v
  · exact absurd rfl hv
  all_goals rfl

theorem cacheOf_setCache_ne (s : QuadState) (v v' : Variant) (m : List (Nat × RuleObj))
    (h : v' ≠ v) : (s.setCache v m).cacheOf v' = s.cacheOf v' := by
  cases v <;> cases v' <;> first
  | rfl
  | exact absurd rfl h

theorem update_cacheOf (s : QuadState) (k : Nat) (v : Variant) :
    ({ s with nextId := k } : QuadState).cacheOf v = s.cacheOf v := by
  cases v <;> rfl

theorem update_factories (s : QuadState) (k : Nat) :
    ({ s with nextId := k } : QuadState).factories = s.factories := rfl

theorem instanceOf_hit {s : QuadState} {v : Variant} {q : Nat} {r : RuleObj}
    (h : cfind (s.cacheOf v) q = some r) : instanceOf v q s = (r, s) := by
  simp [instanceOf, h]

theorem instanceOf_miss {s : QuadState} {v : Variant} {q : Nat}
    (h : cfind (s.cacheOf v) q = none) :
    instanceOf v q s =
      (mkCachedRule v q s.nextId,
       { s.setCache v ((q, mkCachedRule v q s.nextId) :: s.cacheOf v) with
           nextId := s.nextId + 1 }) := by
  simp [instanceOf, h]

theorem instanceOf_registered {v : Variant} (q : Nat) (s : QuadState) (hv : v ≠ .arbq) :
    cfind ((instanceOf v q s).2.cacheOf v) q = some (instanceOf v q s).1 := by
  rcases hc : cfind (s.cacheOf v) q with _ | r
  · rw [instanceOf_miss hc]
    rw [update_cacheOf, cacheOf_setCache_self _ _ _ hv]
    simp [cfind]
  · rw [instanceOf_hit hc]
    exact hc

theorem instanceOf_factories (v : Variant) (q : Nat) (s : QuadState) :
    (instanceOf v q s).2.factories = s.factories := by
  rcases hc : cfind (s.cacheOf v) q with _ | r
  · rw [instanceOf_miss hc]
    rw [update_factories, setCache_factories]
  · rw [instanceOf_hit hc]

theorem extends_refl (s : QuadState) : Extends s s :=
  ⟨Nat.le_refl _, fun _ _ _ h => h, fun _ _ _ h => h⟩

theorem extends_trans {s t u : QuadState} (h1 : Extends s t) (h2 : Extends t u) :
    Extends s u :=
  ⟨Nat.le_trans h1.1 h2.1,
   fun v q r h => h2.2.1 v q r (h1.2.1 v q r h),
   fun a b f h => h2.2.2 a b f (h1.2.2 a b f h)⟩

theorem cfind_cons_ne {m : List (Nat × RuleObj)} {q q' : Nat} {r : RuleObj}
    (h : q ≠ q') : cfind ((q, r) :: m) q' = cfind m q' := by
  simp [cfind, h]

theorem instanceOf_extends (v : Variant) (q : Nat) (s : QuadState) :
    Extends s (instanceOf v q s).2 := by
  rcases hc : cfind (s.cacheOf v) q with _ | r
  · rw [instanceOf_miss hc]
    refine ⟨?_, ?_, ?_⟩
    · show s.nextId ≤ s.nextId + 1
      exact Nat.le_succ _
    · intro v' q' r' h'
      rw [update_cacheOf]
      by_cases hvv : v' = v
      · subst hvv
        by_cases hva : v' = .arbq
        · subst hva
          rw [cacheOf_arbq] at h'
          exact absurd h' (by simp [cfind])
        · rw [cacheOf_setCache_self _ _ _ hva]
          have hqq : q ≠ q' := by
            intro hq
            subst hq
            rw [h'] at hc
            exact Option.noConfusion hc
          rw [cfind_cons_ne hqq]
          exact h'
      · rw [cacheOf_setCache_ne _ _ _ _ hvv]
        exact h'
    · intro a b f h'
      rw [update_factories, setCache_factories]
      exact h'
  · rw [instanceOf_hit hc]
    exact extends_refl s

theorem instanceOf_fields {v : Variant} {q : Nat} {s : QuadState} (hwf : WFState s) :
    (instanceOf v q s).1.variant = v ∧ (instanceOf v q s).1.q = q ∧
      WFRule (instanceOf v q s).1 := by
  rcases hc : cfind (s.cacheOf v) q with _ | r
  · rw [instanceOf_miss hc]
    refine ⟨rfl, rfl, ?_, ?_⟩ <;> simp [mkCachedRule]
  · rw [instanceOf_hit hc]
    exact hwf v q r hc

theorem instanceOf_wf {s : QuadState} (v : Variant) (q : Nat) (hwf : WFState s) :
    WFState (instanceOf v q s).2 := by
  rcases hc : cfind (s.cacheOf v) q with _ | r
  · rw [instanceOf_miss hc]
    intro v' q' r' h'
    rw [update_cacheOf] at h'
    by_cases hvv : v' = v
    · subst hvv
      by_cases hva : v' = .arbq
      · subst hva
        rw [cacheOf_arbq] at h'
        exact absurd h' (by simp [cfind])
      · rw [cacheOf_setCache_self _ _ _ hva] at h'
        by_cases hqq : q = q'
        · subst hqq
          have hmk : mkCachedRule v' q s.nextId = r' := by
            simpa [cfind] using h'
          have : r' = mkCachedRule v' q s.nextId := hmk.symm
          subst this
          refine ⟨rfl, rfl, ?_, ?_⟩ <;> simp [mkCachedRule]
        · rw [cfind_cons_ne hqq] at h'
          exact hwf v' q' r' h'
    · rw [cacheOf_setCache_ne _ _ _ _ hvv] at h'
      exact hwf v' q' r' h'
  · rw [instanceOf_hit hc]
    exact hwf

theorem instanceOf_frozen {v : Variant} {q : Nat} {s s₁ t : QuadState} {r : RuleObj}
    (hv : v ≠ .arbq) (h : instanceOf v q s = (r, s₁)) (he : Extends s₁ t) :
    instanceOf v q t = (r, t) := by
  have hreg : cfind (s₁.cacheOf v) q = some r := by
    have := instanceOf_registered q s hv
    rw [h] at this
    exact this
  exact instanceOf_hit (he.2.1 v q r hreg)

theorem wf_init : WFState initState := by
  intro v q r h
  cases v <;> simp [initState, QuadState.cacheOf, cfind] at h

theorem topoVariant_ne_arbq {nm : String} {v : Variant} (h : topoVariant nm = some v) :
    v ≠ .arbq := by
  unfold topoVariant at h
  split_ifs at h <;> injection h with h2 <;> subst h2 <;> intro hx <;> cases hx

theorem topoVariant_none {nm : String} (h : nm ∉ supportedTopos) :
    topoVariant nm = none := by
  simp only [supportedTopos, List.mem_cons, List.not_mem_nil, or_false, not_or] at h
  obtain ⟨h1, h2, h3, h4, h5⟩ := h
  simp [topoVariant, h1, h2, h3, h4, h5]

theorem topo2intg_ok_inv {q : Nat} {nm : String} {s s' : QuadState} {r : RuleObj}
    (h : Topo2Intg q nm s = .ok (r, s')) :
    ∃ v, topoVariant nm = some v ∧ v ≠ Variant.arbq ∧ instanceOf v q s = (r, s') := by
  unfold Topo2Intg at h
  rcases ht : topoVariant nm with _ | v
  · rw [ht] at h
    exact absurd h (by simp)
  · rw [ht] at h
    refine ⟨v, rfl, topoVariant_ne_arbq ht, ?_⟩
    have := CRes.ok.inj h
    exact Prod.ext (congrArg Prod.fst this) (congrArg Prod.snd this)

theorem topo2intg_extends {q : Nat} {nm : String} {s s' : QuadState} {r : RuleObj}
    (h : Topo2Intg q nm s = .ok (r, s')) : Extends s s' := by
  obtain ⟨v, _, _, hi⟩ := topo2intg_ok_inv h
  have := instanceOf_extends v q s
  rw [hi] at this
  exact this

theorem topo2intg_wf {q : Nat} {nm : String} {s s' : QuadState} {r : RuleObj}
    (hwf : WFState s) (h : Topo2Intg q nm s = .ok (r, s')) : WFState s' := by
  obtain ⟨v, _, _, hi⟩ := topo2intg_ok_inv h
  have := instanceOf_wf v q hwf
  rw [hi] at this
  exact this

theorem topo2intg_frozen {q : Nat} {nm : String} {s s' t : QuadState} {r : RuleObj}
    (h : Topo2Intg q nm s = .ok (r, s')) (he : Extends s' t) :
    Topo2Intg q nm t = .ok (r, t) := by
  obtain ⟨v, hv, hna, hi⟩ := topo2intg_ok_inv h
  have hfro : instanceOf v q t = (r, t) := instanceOf_frozen hna hi he
  unfold Topo2Intg
  rw [hv]
  show CRes.ok (instanceOf v q t) = CRes.ok (r, t)
  rw [hfro]

theorem buildSideRules_extends {q : Nat} {ns : List String} {s s' : QuadState}
    {rs : List RuleObj} (h : buildSideRules q ns s = .ok (rs, s')) : Extends s s' := by
  induction ns generalizing s rs with
  | nil =>
      have h' := CRes.ok.inj h
      injection h' with ha hb
      subst hb
      exact extends_refl s
  | cons nm rest ih =>
      unfold buildSideRules at h
      split at h
      next r0 sA h1 =>
        split at h
        next rs2 sB h2 =>
          injection h with hp
          injection hp with ha hb
          subst hb
          exact extends_trans (topo2intg_extends h1) (ih h2)
        next m h2 => exact absurd h (by simp)
        next h2 => exact absurd h (by simp)
      next m h1 => exact absurd h (by simp)
      next h1 => exact absurd h (by simp)

theorem buildSideRules_wf {q : Nat} {ns : List String} {s s' : QuadState}
    {rs : List RuleObj} (hwf : WFState s) (h : buildSideRules q ns s = .ok (rs, s')) :
    WFState s' := by
  induction ns generalizing s rs with
  | nil =>
      have h' := CRes.ok.inj h
      injection h' with ha hb
      subst hb
      exact hwf
  | cons nm rest ih =>
      unfold buildSideRules at h
      split at h
      next r0 sA h1 =>
        split at h
        next rs2 sB h2 =>
          injection h with hp
          injection hp with ha hb
          subst hb
          exact ih (topo2intg_wf hwf h1) h2
        next m h2 => exact absurd h (by simp)
        next h2 => exact absurd h (by simp)
      next m h1 => exact absurd h (by simp)
      next h1 => exact absurd h (by simp)

theorem buildSideRules_factories {q : Nat} {ns : List String} {s s' : QuadState}
    {rs : List RuleObj} (h : buildSideRules q ns s = .ok (rs, s')) :
    s'.factories = s.factories := by
  induction ns generalizing s rs with
  | nil =>
      have h' := CRes.ok.inj h
      injection h' with ha hb
      subst hb
      rfl
  | cons nm rest ih =>
      unfold buildSideRules at h
      split at h
      next r0 sA h1 =>
        split at h
        next rs2 sB h2 =>
          injection h with hp
          injection hp with ha hb
          subst hb
          obtain ⟨v, _, _, hi⟩ := topo2intg_ok_inv h1
          have hf := instanceOf_factories v q s
          rw [hi] at hf
          rw [ih h2, hf]
        next m h2 => exact absurd h (by simp)
        next h2 => exact absurd h (by simp)
      next m h1 => exact absurd h (by simp)
      next h1 => exact absurd h (by simp)

theorem buildSideRules_length {q : Nat} {ns : List String} {s s' : QuadState}
    {rs : List RuleObj} (h : buildSideRules q ns s = .ok (rs, s')) :
    rs.length = ns.length := by
  induction ns generalizing s rs with
  | nil =>
      have h' := CRes.ok.inj h
      injection h' with ha hb
      rw [← ha]
      rfl
  | cons nm rest ih =>
      unfold buildSideRules at h
      split at h
      next r0 sA h1 =>
        split at h
        next rs2 sB h2 =>
          injection h with hp
          injection hp with ha hb
          rw [hb] at h2
          rw [← ha]
          simp [ih h2]
        next m h2 => exact absurd h (by simp)
        next h2 => exact absurd h (by simp)
      next m h1 => exact absurd h (by simp)
      next h1 => exact absurd h (by simp)

theorem buildSideRules_frozen {q : Nat} {ns : List String} {s s' t : QuadState}
    {rs : List RuleObj} (h : buildSideRules q ns s = .ok (rs, s')) (he : Extends s' t) :
    buildSideRules q ns t = .ok (rs, t) := by
  induction ns generalizing s rs with
  | nil =>
      have h' := CRes.ok.inj h
      injection h' with ha hb
      rw [← ha]
      rfl
  | cons nm rest ih =>
      unfold buildSideRules at h
      split at h
      next r0 sA h1 =>
        split at h
        next rs2 sB h2 =>
          injection h with hp
          injection hp with ha hb
          rw [hb] at h2
          have hA : Extends sA s' := buildSideRules_extends h2
          have h1t : Topo2Intg q nm t = .ok (r0, t) :=
            topo2intg_frozen h1 (extends_trans hA he)
          have h2t : buildSideRules q rest t = .ok (rs2, t) := ih h2
          rw [← ha]
          unfold buildSideRules
          simp only [h1t, h2t]
        next m h2 => exact absurd h (by simp)
        next h2 => exact absurd h (by simp)
      next m h1 => exact absurd h (by simp)
      next h1 => exact absurd h (by simp)

theorem facFind_cons_of_none {m : List ((String × Nat) × sideIntgFactory)}
    {t0 : String} {b0 : Nat} {f0 : sideIntgFactory} {t : String} {b : Nat}
    {f : sideIntgFactory} (hn : facFind m t0 b0 = none) (h : facFind m t b = some f) :
    facFind (((t0, b0), f0) :: m) t b = some f := by
  by_cases hc : t0 = t ∧ b0 = b
  · obtain ⟨h1, h2⟩ := hc
    subst h1
    subst h2
    rw [hn] at h
    exact Option.noConfusion h
  · simpa [facFind, hc] using h

theorem extends_consFactory (s1 : QuadState) (k : Nat) (t0 : String) (b0 : Nat)
    (f0 : sideIntgFactory) (hn : facFind s1.factories t0 b0 = none)
    (hk : s1.nextId ≤ k) :
    Extends s1 { s1 with nextId := k, factories := ((t0, b0), f0) :: s1.factories } := by
  refine ⟨hk, fun v q r h => ?_, fun a b f h => facFind_cons_of_none hn h⟩
  cases v <;> exact h

theorem sidef_ok_inv {t : String} {b : RuleObj} {s s' : QuadState} {f : sideIntgFactory}
    (h : sideIntgFactory.instanceOf t b s = .ok (f, s')) :
    (facFind s.factories t b.id = some f ∧ s' = s) ∨
    (facFind s.factories t b.id = none ∧
     ∃ topo rs s1, GetMeshObjTopo t = some topo ∧
       buildSideRules b.q topo.sideNames s = .ok (rs, s1) ∧
       f = ⟨s1.nextId, t, b.id, rs⟩ ∧
       s' = { s1 with nextId := s1.nextId + 1,
                      factories := ((t, b.id), ⟨s1.nextId, t, b.id, rs⟩) :: s1.factories }) := by
  unfold sideIntgFactory.instanceOf at h
  split at h
  next f0 hfound =>
    have hp := CRes.ok.inj h
    injection hp with ha hb
    subst ha
    exact Or.inl ⟨hfound, hb.symm⟩
  next hnone =>
    split at h
    next hg => exact absurd h (by simp)
    next topo hg =>
      split at h
      next rs s1 hb =>
        have hp := CRes.ok.inj h
        injection hp with ha hc
        exact Or.inr ⟨hnone, topo, rs, s1, hg, hb, ha.symm, hc.symm⟩
      next m hb => exact absurd h (by simp)
      next hb => exact absurd h (by simp)

theorem sidef_extends {t : String} {b : RuleObj} {s s' : QuadState} {f : sideIntgFactory}
    (h : sideIntgFactory.instanceOf t b s = .ok (f, s')) : Extends s s' := by
  rcases sidef_ok_inv h with ⟨_, hs⟩ | ⟨hn, topo, rs, s1, _, hb, _, hs⟩
  · subst hs
    exact extends_refl _
  · subst hs
    have h1 : Extends s s1 := buildSideRules_extends hb
    refine extends_trans h1 (extends_consFactory s1 _ t b.id _ ?_ (Nat.le_succ _))
    rw [buildSideRules_factories hb]
    exact hn

theorem sidef_wf {t : String} {b : RuleObj} {s s' : QuadState} {f : sideIntgFactory}
    (hwf : WFState s) (h : sideIntgFactory.instanceOf t b s = .ok (f, s')) :
    WFState s' := by
  rcases sidef_ok_inv h with ⟨_, hs⟩ | ⟨hn, topo, rs, s1, _, hb, _, hs⟩
  · subst hs
    exact hwf
  · subst hs
    have h1 : WFState s1 := buildSideRules_wf hwf hb
    intro v q r hfind
    refine h1 v q r ?_
    cases v <;> exact hfind

theorem side_rule_ok_inv {r : RuleObj} {s s' : QuadState} {r' : RuleObj}
    (h : intgRule.side_rule r s = .ok (r', s')) :
    ∃ v, v ≠ Variant.arbq ∧ instanceOf v r.q s = (r', s') := by
  unfold intgRule.side_rule at h
  split at h
  next hv => exact absurd h (by simp)
  next hv => exact absurd h (by simp)
  next hv => exact ⟨.barq, by decide, CRes.ok.inj h⟩
  next hv => exact ⟨.barq, by decide, CRes.ok.inj h⟩
  next hv => exact ⟨.quadq, by decide, CRes.ok.inj h⟩
  next hv => exact ⟨.triq, by decide, CRes.ok.inj h⟩

theorem changeOrder_ok_inv {r : RuleObj} {q' : Nat} {s s' : QuadState} {r' : RuleObj}
    (h : intgRule.ChangeOrder r q' s = .ok (r', s')) :
    ∃ v, v ≠ Variant.arbq ∧ r.variant = v ∧ instanceOf v q' s = (r', s') := by
  unfold intgRule.ChangeOrder at h
  cases hr : r.variant <;> rw [hr] at h
  case arbq => exact absurd h (by simp)
  case barq => exact ⟨.barq, by decide, rfl, CRes.ok.inj h⟩
  case quadq => exact ⟨.quadq, by decide, rfl, CRes.ok.inj h⟩
  case triq => exact ⟨.triq, by decide, rfl, CRes.ok.inj h⟩
  case hexq => exact ⟨.hexq, by decide, rfl, CRes.ok.inj h⟩
  case tetraq => exact ⟨.tetraq, by decide, rfl, CRes.ok.inj h⟩

theorem step_extends {s s' : QuadState} (h : Step s s') : Extends s s' := by
  cases h with
  | inst v q s => exact instanceOf_extends v q s
  | arb pdim nq pc w s =>
      refine ⟨Nat.le_succ _, fun v q r h => ?_, fun a b f h => h⟩
      cases v <;> exact h
  | sider r s r' s2 h =>
      obtain ⟨v, _, hi⟩ := side_rule_ok_inv h
      have := instanceOf_extends v r.q s
      rw [hi] at this
      exact this
  | chord r q' s r' s2 h =>
      obtain ⟨v, _, _, hi⟩ := changeOrder_ok_inv h
      have := instanceOf_extends v q' s
      rw [hi] at this
      exact this
  | topo q nm s r s2 h => exact topo2intg_extends h
  | sidef t b s f s2 h => exact sidef_extends h

theorem step_wf {s s' : QuadState} (hwf : WFState s) (h : Step s s') : WFState s' := by
  cases h with
  | inst v q s => exact instanceOf_wf v q hwf
  | arb pdim nq pc w s =>
      intro v q r h
      exact hwf v q r (by cases v <;> exact h)
  | sider r s r' s2 h =>
      obtain ⟨v, _, hi⟩ := side_rule_ok_inv h
      have := instanceOf_wf v r.q hwf
      rw [hi] at this
      exact this
  | chord r q' s r' s2 h =>
      obtain ⟨v, _, _, hi⟩ := changeOrder_ok_inv h
      have := instanceOf_wf v q' hwf
      rw [hi] at this
      exact this
  | topo q nm s r s2 h => exact topo2intg_wf hwf h
  | sidef t b s f s2 h => exact sidef_wf hwf h

theorem reach_extends {s s' : QuadState} (h : Reach s s') : Extends s s' := by
  induction h with
  | refl => exact extends_refl _
  | tail hpre hstep ih => exact extends_trans ih (step_extends hstep)

theorem reach_wf {s s' : QuadState} (hwf : WFState s) (h : Reach s s') : WFState s' := by
  induction h with
  | refl => exact hwf
  | tail hpre hstep ih => exact step_wf ih hstep

theorem sideRuleMatches_of (v vs : Variant) (q : Nat) (s : QuadState) (hwf : WFState s)
    (hsr : ∀ r s0, r.variant = v → intgRule.side_rule r s0 = .ok (instanceOf vs r.q s0)) :
    SideRuleMatches v vs q s := by
  have hf := instanceOf_fields (v := v) (q := q) (s := s) hwf
  have hwf1 := instanceOf_wf v q hwf
  have hf2 := instanceOf_fields (v := vs) (q := q) (s := (instanceOf v q s).2) hwf1
  refine ⟨?_, hf2.1, hf2.2.1⟩
  rw [hsr _ _ hf.1, hf.2.1]

/-- Claim C3: `side_rule()` on the quadrilateral rule of order q returns
the cached line rule of order q; on the hexahedron rule it returns the
cached quadrilateral rule; on the tetrahedron rule the cached triangle
rule — in each case the cache instance at the receiver's own order
(ESMC_Quadrature.h lines 110-112, 145-147, 162-164). -/
theorem c3_side_rule_pairs (q : Nat) (s : QuadState) (hwf : WFState s) :
    SideRuleMatches .quadq .barq q s ∧ SideRuleMatches .hexq .quadq q s ∧
      SideRuleMatches .tetraq .triq q s := by
  refine ⟨?_, ?_, ?_⟩ <;> refine sideRuleMatches_of _ _ q s hwf ?_ <;>
    intro r s0 hr <;> unfold intgRule.side_rule <;> rw [hr]

/-- Witness for C3 at q = 2 from the initial state. -/
theorem c3_witness :
    SideRuleMatches .quadq .barq 2 initState ∧
    SideRuleMatches .hexq .quadq 2 initState ∧
    SideRuleMatches .tetraq .triq 2 initState :=
  c3_side_rule_pairs 2 initState wf_init

/-- Claim C4: for every cached variant, `instance(order)` is idempotent —
an immediately repeated call returns the identical rule object and leaves
the state unchanged — and after any further operations the cache still
returns that same object for that (variant, order) pair. -/
theorem c4_instance_idempotent (v : Variant) (q : Nat) (s s' : QuadState)
    (hv : v ≠ .arbq) (hr : Reach (instanceOf v q s).2 s') :
    instanceOf v q ((instanceOf v q s).2) = ((instanceOf v q s).1, (instanceOf v q s).2) ∧
    instanceOf v q s' = ((instanceOf v q s).1, s') := by
  have hreg := instanceOf_registered q s hv
  exact ⟨instanceOf_hit hreg, instanceOf_hit ((reach_extends hr).2.1 v q _ hreg)⟩

/-- Witness for C4: the quadrilateral cache at order 1 from the initial
state. -/
theorem c4_witness :
    instanceOf .quadq 1 ((instanceOf .quadq 1 initState).2) =
        ((instanceOf .quadq 1 initState).1, (instanceOf .quadq 1 initState).2) ∧
    instanceOf .quadq 1 c4s1 = ((instanceOf .quadq 1 initState).1, c4s1) :=
  c4_instance_idempotent .quadq 1 initState c4s1 (by decide) Relation.ReflTransGen.refl

/-- Claim C5: `side_rule()` on an arbq or barq rule throws the
unsupported-operation error, and `ChangeOrder` on an arbq rule throws
(ESMC_Quadrature.h lines 71-77 and 92-94). -/
theorem c5_unsupported_ops (r : RuleObj) (s : QuadState) (q' : Nat) :
    (r.variant = .arbq →
        intgRule.side_rule r s = .thrown "No side rule for arbq" ∧
        intgRule.ChangeOrder r q' s = .thrown "Arbq doesnt swap order") ∧
    (r.variant = .barq → intgRule.side_rule r s = .thrown "No side rule for bar") := by
  refine ⟨fun h => ⟨?_, ?_⟩, fun h => ?_⟩
  · unfold intgRule.side_rule
    rw [h]
  · unfold intgRule.ChangeOrder
    rw [h]
  · unfold intgRule.side_rule
    rw [h]

/-- Witness for C5: a concrete arbitrary rule and a concrete line rule. -/
theorem c5_witness :
    (intgRule.side_rule c5arb initState = .thrown "No side rule for arbq" ∧
     intgRule.ChangeOrder c5arb 3 initState = .thrown "Arbq doesnt swap order") ∧
    intgRule.side_rule c5bar initState = .thrown "No side rule for bar" :=
  ⟨(c5_unsupported_ops c5arb initState 3).1 (by decide),
   (c5_unsupported_ops c5bar initState 3).2 (by decide)⟩

/-- Claim C6: `ChangeOrder(q)` on a rule of any cached variant returns
that variant's `instance(q)`, and when the cache already holds a rule at
order q that cached singleton is the rule returned
(ESMC_Quadrature.h lines 89-91, 107-109, 124-126, 142-144, 159-161). -/
theorem c6_changeOrder_cached (v : Variant) (r : RuleObj) (q' : Nat) (s : QuadState)
    (hv : v ≠ .arbq) (hr : r.variant = v) :
    intgRule.ChangeOrder r q' s = .ok (instanceOf v q' s) ∧
    (∀ r₀, cfind (s.cacheOf v) q' = some r₀ → (instanceOf v q' s).1 = r₀) := by
  constructor
  · unfold intgRule.ChangeOrder
    rw [hr]
    cases v
    · exact absurd rfl hv
    all_goals rfl
  · intro r₀ h₀
    rw [instanceOf_hit h₀]

/-- Witness for C6: the quadrilateral rule of order 2 switched to order 3. -/
theorem c6_witness :
    intgRule.ChangeOrder c6quad 3 initState = .ok (instanceOf .quadq 3 initState) ∧
    (∀ r₀, cfind (initState.cacheOf .quadq) 3 = some r₀ →
        (instanceOf .quadq 3 initState).1 = r₀) :=
  c6_changeOrder_cached .quadq c6quad 3 initState (by decide) (by decide)

/-- Claim C7: `gauss_legendre` fails its precondition at n = 0; at n = 1
it produces the single abscissa 0, with the single weight 2 exactly when
a weights array is supplied; and the pair ([0], [2]) is the unique data
satisfying the 1-point Gauss-Legendre exactness property, so the modelled
output is forced. -/
theorem c7_gauss_legendre_small_n :
    (∀ b, gauss_legendre 0 b = .thrown "gauss_legendre: n must be positive") ∧
    gauss_legendre 1 true = .ok ([0], some [2]) ∧
    gauss_legendre 1 false = .ok ([0], none) ∧
    (∀ locs wgts : List ℚ, IsGaussLegendreRule 1 locs wgts ↔ locs = [0] ∧ wgts = [2]) := by
  refine ⟨fun b => rfl, rfl, rfl, fun locs wgts => ?_⟩
  constructor
  · rintro ⟨hl, hw, hk⟩
    obtain ⟨x, hx⟩ := List.length_eq_one.mp hl
    obtain ⟨w, hw1⟩ := List.length_eq_one.mp hw
    subst hx
    subst hw1
    have h0 := hk 0 (by norm_num)
    have h1 := hk 1 (by norm_num)
    simp [monomialIntegral] at h0 h1
    subst h0
    have hx0 : x = 0 := by
      rcases h1 with h1 | h1
      · exact absurd h1 (by norm_num)
      · exact h1
    subst hx0
    exact ⟨rfl, rfl⟩
  · rintro ⟨h1, h2⟩
    subst h1
    subst h2
    refine ⟨rfl, rfl, ?_⟩
    intro k hk
    interval_cases k <;> simp [monomialIntegral]

/-- Claim C8: the topology-to-rule dispatcher fails with the
unsupported-topology error on any name outside the supported set, and
never returns a rule for such a name. -/
theorem c8_unknown_topology_fails (q : Nat) (nm : String) (s : QuadState)
    (h : nm ∉ supportedTopos) :
    Topo2Intg q nm s = .thrown "Unknown topology" ∧
    ∀ r s', Topo2Intg q nm s ≠ .ok (r, s') := by
  have hn := topoVariant_none h
  have h1 : Topo2Intg q nm s = .thrown "Unknown topology" := by
    unfold Topo2Intg
    rw [hn]
  exact ⟨h1, fun r s' hok => by rw [h1] at hok; exact CRes.noConfusion hok⟩

/-- Witness for C8 at the unknown name PYRAMID. -/
theorem c8_witness :
    Topo2Intg 3 "PYRAMID" initState = .thrown "Unknown topology" ∧
    ∀ r s', Topo2Intg 3 "PYRAMID" initState ≠ .ok (r, s') :=
  c8_unknown_topology_fails 3 "PYRAMID" initState (by decide)

/-- Claim C9: point count, order and parametric dimension of a cached
rule are fixed at construction — any sequence of public operations leaves
every registered rule unchanged in its cache slot — and the coordinate
and weight arrays of every rule (cached or arbitrary, under the arbq
caller contract) have exactly npoints·parametric_dim and npoints
entries. -/
theorem c9_rule_invariants (s s' : QuadState) (hwf : WFState s) (hr : Reach s s') :
    WFState s' ∧
    (∀ v q r, cfind (s.cacheOf v) q = some r →
        cfind (s'.cacheOf v) q = some r ∧
        r.locations.length = r.npoints * r.parametric_dim ∧
        r.weights.length = r.npoints) ∧
    (∀ pdim nq : Nat, ∀ pc : List ℚ, ∀ w : Option (List ℚ), ∀ s0 : QuadState,
        pc.length = nq * pdim →
        (∀ ws, w = some ws → ws.length = nq) →
        (arbq.mk pdim nq pc w s0).1.locations.length =
            (arbq.mk pdim nq pc w s0).1.npoints *
              (arbq.mk pdim nq pc w s0).1.parametric_dim ∧
        (arbq.mk pdim nq pc w s0).1.weights.length = (arbq.mk pdim nq pc w s0).1.npoints) := by
  refine ⟨reach_wf hwf hr, ?_, ?_⟩
  · intro v q r hfind
    have hpres := (reach_extends hr).2.1 v q r hfind
    have hwr := (hwf v q r hfind).2.2
    exact ⟨hpres, hwr.1, hwr.2⟩
  · intro pdim nq pc w s0 hpc hws
    constructor
    · show (pc.take (nq * pdim)).length = nq * pdim
      rw [List.length_take, hpc]
      exact Nat.min_self _
    · cases w with
      | none =>
          show (List.replicate nq (0 : ℚ)).length = nq
          simp
      | some ws =>
          show (ws.take nq).length = nq
          rw [List.length_take, hws ws rfl]
          exact Nat.min_self _

/-- Witness for C9: one step (caching the quadrilateral rule of order 1)
from the initial state. -/
theorem c9_witness :
    WFState c4s1 ∧
    (∀ v q r, cfind (initState.cacheOf v) q = some r →
        cfind (c4s1.cacheOf v) q = some r ∧
        r.locations.length = r.npoints * r.parametric_dim ∧
        r.weights.length = r.npoints) ∧
    (∀ pdim nq : Nat, ∀ pc : List ℚ, ∀ w : Option (List ℚ), ∀ s0 : QuadState,
        pc.length = nq * pdim →
        (∀ ws, w = some ws → ws.length = nq) →
        (arbq.mk pdim nq pc w s0).1.locations.length =
            (arbq.mk pdim nq pc w s0).1.npoints *
              (arbq.mk pdim nq pc w s0).1.parametric_dim ∧
        (arbq.mk pdim nq pc w s0).1.weights.length = (arbq.mk pdim nq pc w s0).1.npoints) :=
  c9_rule_invariants initState c4s1 wf_init
    (Relation.ReflTransGen.single (Step.inst .quadq 1 initState))

/-- Claim C10: the arbq constructor sets order = npoints = nq and
parametric_dim = pdim, copies exactly the nq·pdim supplied coordinates
into `locations`, and copies the supplied weights only when a non-null
weights pointer is given (ESMC_Quadrature.h lines 63-67). -/
theorem c10_arbq_constructor (pdim nq : Nat) (pc : List ℚ) (w : Option (List ℚ))
    (s : QuadState) (hpc : pc.length = nq * pdim) :
    (arbq.mk pdim nq pc w s).1.order = nq ∧
    (arbq.mk pdim nq pc w s).1.npoints = nq ∧
    (arbq.mk pdim nq pc w s).1.parametric_dim = pdim ∧
    (arbq.mk pdim nq pc w s).1.locations = pc ∧
    (∀ ws, w = some ws → ws.length = nq → (arbq.mk pdim nq pc w s).1.weights = ws) ∧
    (w = none → (arbq.mk pdim nq pc w s).1.weights = List.replicate nq 0) := by
  refine ⟨rfl, rfl, rfl, ?_, ?_, ?_⟩
  · show pc.take (nq * pdim) = pc
    rw [← hpc]
    exact List.take_length pc
  · intro ws hw hlen
    subst hw
    show ws.take nq = ws
    rw [← hlen]
    exact List.take_length ws
  · intro hw
    subst hw
    rfl

/-- Witness for C10: a 3-point 2-dimensional arbitrary rule with supplied
weights. -/
theorem c10_witness :
    (arbq.mk 2 3 [1, 2, 3, 4, 5, 6] (some [7, 8, 9]) initState).1.order = 3 ∧
    (arbq.mk 2 3 [1, 2, 3, 4, 5, 6] (some [7, 8, 9]) initState).1.npoints = 3 ∧
    (arbq.mk 2 3 [1, 2, 3, 4, 5, 6] (some [7, 8, 9]) initState).1.parametric_dim = 2 ∧
    (arbq.mk 2 3 [1, 2, 3, 4, 5, 6] (some [7, 8, 9]) initState).1.locations =
        [1, 2, 3, 4, 5, 6] ∧
    (∀ ws, (some [7, 8, 9] : Option (List ℚ)) = some ws → ws.length = 3 →
        (arbq.mk 2 3 [1, 2, 3, 4, 5, 6] (some [7, 8, 9]) initState).1.weights = ws) ∧
    ((some [7, 8, 9] : Option (List ℚ)) = none →
        (arbq.mk 2 3 [1, 2, 3, 4, 5, 6] (some [7, 8, 9]) initState).1.weights =
          List.replicate 3 0) :=
  c10_arbq_constructor 2 3 [1, 2, 3, 4, 5, 6] (some [7, 8, 9]) initState (by decide)

/-- Claim C1 counterexample: the hexahedron factory has 6 side rules, and
`GetSideRule(6)` — the first out-of-range index — does not fail with a
raised out-of-range error: `std::vector::operator[]` is unchecked, so the
access is undefined behaviour (ESMC_Quadrature.h lines 187-189). -/
theorem c1_counterexample :
    CRes.isOk c1call = true ∧
    (getFac c1call).side_rules.length = 6 ∧
    sideIntgFactory.GetSideRule (getFac c1call) 6 = .ub ∧
    CRes.isThrown (sideIntgFactory.GetSideRule (getFac c1call) 6) = false := by
  decide

/-- Claim C1 (amended): a side-rule set freshly built for a topology with
k sides holds exactly k rules, and `GetSideRule(i)` for i ≥ k performs an
unchecked out-of-bounds vector access — undefined behaviour that raises
no out-of-range error and returns no rule. -/
theorem c1_get_side_rule_unchecked (t : String) (base : RuleObj) (s s' : QuadState)
    (f : sideIntgFactory) (topo : MeshObjTopo)
    (hfresh : facFind s.factories t base.id = none)
    (hok : sideIntgFactory.instanceOf t base s = .ok (f, s'))
    (htopo : GetMeshObjTopo t = some topo) :
    f.side_rules.length = topo.num_sides ∧
    ∀ i, topo.num_sides ≤ i →
      sideIntgFactory.GetSideRule f i = .ub ∧
      CRes.isThrown (sideIntgFactory.GetSideRule f i) = false := by
  rcases sidef_ok_inv hok with ⟨hfound, _⟩ | ⟨_, topo2, rs, s1, htopo2, hb, hf, _⟩
  · rw [hfresh] at hfound
    exact Option.noConfusion hfound
  · rw [htopo] at htopo2
    injection htopo2 with htq
    subst htq
    have hlen : rs.length = topo.sideNames.length := buildSideRules_length hb
    subst hf
    refine ⟨hlen, fun i hi => ?_⟩
    have hnone : rs[i]? = none := by
      rw [List.getElem?_eq_none_iff]
      rw [hlen]
      exact hi
    have hub : sideIntgFactory.GetSideRule ⟨s1.nextId, t, base.id, rs⟩ i = .ub := by
      unfold sideIntgFactory.GetSideRule
      rw [hnone]
    exact ⟨hub, by rw [hub]; rfl⟩

/-- Witness for the amended C1 on the concrete hexahedron factory. -/
theorem c1_witness :
    (getFac c1call).side_rules.length =
        (⟨"HEX", 3, ["QUAD", "QUAD", "QUAD", "QUAD", "QUAD", "QUAD"]⟩ :
          MeshObjTopo).num_sides ∧
    ∀ i, (⟨"HEX", 3, ["QUAD", "QUAD", "QUAD", "QUAD", "QUAD", "QUAD"]⟩ :
          MeshObjTopo).num_sides ≤ i →
      sideIntgFactory.GetSideRule (getFac c1call) i = .ub ∧
      CRes.isThrown (sideIntgFactory.GetSideRule (getFac c1call) i) = false :=
  c1_get_side_rule_unchecked "HEX" c1base.1 c1base.2 (getFacState c1call) (getFac c1call)
    ⟨"HEX", 3, ["QUAD", "QUAD", "QUAD", "QUAD", "QUAD", "QUAD"]⟩
    (by decide) (by decide) (by decide)

/-- Claim C2 counterexample: two base rules of the same order 2 but
distinct identities (a line rule and a triangle rule) given to
`sideIntgFactory::instance` for the same topology yield two distinct
factory objects — the `InstanceMap` key includes the base rule's
identity, so the result is not shared. -/
theorem c2_counterexample :
    c2r1.1.order = 2 ∧ c2r2.1.order = 2 ∧ c2r1.1.id ≠ c2r2.1.id ∧
    CRes.isOk c2call1 = true ∧ CRes.isOk c2call2 = true ∧
    (getFac c2call1).id ≠ (getFac c2call2).id ∧
    getFac c2call1 ≠ getFac c2call2 := by
  decide

/-- Claim C2 (amended): for two base rules of the same order but distinct
identities, `sideIntgFactory::instance` returns two distinct
(separately cached) factory objects — sharing happens only for the
identical base rule — but the two factories carry pointwise identical
side-rule sequences, since only the order extracted from the base rule
enters the construction. -/
theorem c2_instance_keyed_by_identity (t : String) (r1 r2 : RuleObj) (s : QuadState)
    (f1 f2 : sideIntgFactory) (s1 s2 : QuadState)
    (hq : r1.q = r2.q)
    (hfresh1 : facFind s.factories t r1.id = none)
    (h1 : sideIntgFactory.instanceOf t r1 s = .ok (f1, s1))
    (hfresh2 : facFind s1.factories t r2.id = none)
    (h2 : sideIntgFactory.instanceOf t r2 s1 = .ok (f2, s2)) :
    f1.id ≠ f2.id ∧ f1.side_rules = f2.side_rules := by
  rcases sidef_ok_inv h1 with ⟨hfound, _⟩ | ⟨_, topo, rs, sA, htopo, hb, hf1, hs1⟩
  · rw [hfresh1] at hfound
    exact Option.noConfusion hfound
  rcases sidef_ok_inv h2 with ⟨hfound2, _⟩ | ⟨_, topo2, rs2, sB, htopo2, hb2, hf2, hs2⟩
  · rw [hfresh2] at hfound2
    exact Option.noConfusion hfound2
  rw [htopo] at htopo2
  injection htopo2 with htq
  subst htq
  have hbext : Extends sA s1 := by
    rw [hs1]
    refine extends_consFactory sA _ t r1.id _ ?_ (Nat.le_succ _)
    rw [buildSideRules_factories hb]
    exact hfresh1
  have hb2' : buildSideRules r1.q topo.sideNames s1 = .ok (rs, s1) :=
    buildSideRules_frozen hb hbext
  rw [← hq] at hb2
  rw [hb2'] at hb2
  injection hb2 with hp
  injection hp with hrs hsb
  subst hf1
  subst hf2
  constructor
  · show sA.nextId ≠ sB.nextId
    rw [← hsb, hs1]
    exact Nat.ne_of_lt (Nat.lt_succ_self _)
  · show rs = rs2
    exact hrs

/-- Witness for the amended C2 on the concrete quadrilateral factories. -/
theorem c2_witness :
    (getFac c2call1).id ≠ (getFac c2call2).id ∧
    (getFac c2call1).side_rules = (getFac c2call2).side_rules :=
  c2_instance_keyed_by_identity "QUAD" c2r1.1 c2r2.1 c2r2.2 (getFac c2call1)
    (getFac c2call2) (getFacState c2call1) (getFacState c2call2)
    (by decide) (by decide) (by decide) (by decide) (by decide)

end ESMC
